import Mathlib

/-!
Verification of the call-processing pipeline of the noso-takehome repository.

The development shallowly embeds the parts of the TypeScript source that the
checked properties concern:

* the Zod validation schemas of `src/lib/validators/schemas.ts`
  (`analysisSchema` and its sub-schemas) over a small JSON value model;
* `preprocessAnalysisData` of `src/lib/adapters/assemblyai-transcription.adapter.ts`
  (null-timestamp normalization before schema validation);
* `convertToTranscript` and `identifyTechSpeaker` of the same adapter
  (word-to-segment merging and speaker-role inference with positional fallback);
* the four API route handlers: the transcription webhook receiver,
  the polling route, the run-analysis route and the start-transcription route,
  modelled as pure state transformers over an explicit server state
  (Firestore call documents, the in-memory processed-webhook table, and an
  event log recording every performed write and analysis trigger).

External effects (Firestore, the transcription provider, the LLM) enter the
model as explicit parameters holding the outcome of the corresponding awaited
operation.  Machine numbers of the source (JSON numbers, seconds, scores) are
modelled as rationals; timestamps taken from `Date.now()` are naturals.
-/

set_option autoImplicit false

namespace Noso

/-! ## JSON value model

JavaScript values as observed by the validation and preprocessing code.
`undefined` is the JavaScript `undefined` value; a field lookup that misses also
yields `undefined`, mirroring property access.  Objects are association lists;
lookup returns the first binding (JavaScript objects have unique keys, the
model tolerates duplicates with first-match access). -/

inductive JVal where
  | null
  | undefined
  | bool (b : Bool)
  | num (q : Rat)
  | str (s : String)
  | arr (items : List JVal)
  | obj (fields : List (String × JVal))

/-- Field lookup in an association list of object fields; a missing key reads
as `undefined`, as JavaScript property access does. -/
def lookupField : List (String × JVal) → String → JVal
  | [], _ => .undefined
  | (k, v) :: rest, key => if k = key then v else lookupField rest key

/-- Property access `o[key]`: `undefined` whenever the value is not an object or
lacks the key.  (JavaScript would throw on `null`/`undefined` receivers; the
embedded code only accesses fields after an object check or behind optional
chaining, so collapsing those cases to `undefined` is observation-equivalent.) -/
def getF : JVal → String → JVal
  | .obj fields, key => lookupField fields key
  | _, _ => .undefined

/-- Setting of one object field, as the spread `\x7b ...o, key: v \x7d` does:
the first binding of the key is replaced in place, a fresh key is appended. -/
def setKey : List (String × JVal) → String → JVal → List (String × JVal)
  | [], key, v => [(key, v)]
  | (k, w) :: rest, key, v =>
    if k = key then (key, v) :: rest else (k, w) :: setKey rest key v

/-- Field update on an object value; non-objects are returned unchanged.
(The source only reaches this operation on values that are objects.) -/
def setField : JVal → String → JVal → JVal
  | .obj fields, key, v => .obj (setKey fields key v)
  | other, _, _ => other

/-! ## Data model of a validated Analysis

Typed images of the Zod schemas of `schemas.ts`.  A timestamp field declared
`z.number().nullable().optional()` parses to one of three outcomes, kept
apart because the normalization claims distinguish them. -/

/-- Parse result of an optional nullable timestamp: the field was absent or
`undefined`, it was `null`, or it held a number. -/
inductive TsVal where
  | absent
  | nullVal
  | time (q : Rat)
deriving DecidableEq, Repr

/-- Stage quality enum of `stageQualitySchema`. -/
inductive StageQuality where
  | poor
  | ok
  | good
  | excellent
deriving DecidableEq, Repr

/-- Severity enum of `insightSeveritySchema`. -/
inductive InsightSeverity where
  | low
  | med
  | high
deriving DecidableEq, Repr

/-- Validated image of `evidenceSchema`. -/
structure Evidence where
  quote : String
  timestamp : TsVal
deriving DecidableEq, Repr

/-- Validated image of `stageEvaluationSchema`. -/
structure StageEvaluation where
  present : Bool
  quality : StageQuality
  evidence : Option (List Evidence)
  notes : Option String
deriving DecidableEq, Repr

/-- Validated image of the `scores` object of `analysisSchema`. -/
structure Scores where
  complianceOverall : Rat
  clarity : Rat
  empathy : Rat
  professionalism : Rat
deriving DecidableEq, Repr

/-- Validated image of `salesInsightSchema`. -/
structure SalesInsight where
  snippet : String
  timestamp : TsVal
  note : String
  severity : Option InsightSeverity
deriving DecidableEq, Repr

/-- Validated image of `missedOpportunitySchema`. -/
structure MissedOpportunity where
  recommendation : String
  snippet : Option String
  timestamp : TsVal
deriving DecidableEq, Repr

/-- Validated image of `checklistItemSchema`. -/
structure ChecklistItem where
  id : String
  label : String
  passed : Bool
  evidence : Option String
  timestamp : TsVal
deriving DecidableEq, Repr

/-- Validated image of the `stages` object of `analysisSchema`: a fixed record
of the six stage keys. -/
structure AnalysisStages where
  introduction : StageEvaluation
  diagnosis : StageEvaluation
  solutionExplanation : StageEvaluation
  upsell : StageEvaluation
  maintenancePlan : StageEvaluation
  closing : StageEvaluation
deriving DecidableEq, Repr

/-- Validated image of `analysisSchema`. -/
structure Analysis where
  summary : String
  generalFeedback : String
  scores : Scores
  callTypePrediction : String
  stages : AnalysisStages
  salesInsights : List SalesInsight
  missedOpportunities : List MissedOpportunity
  checklist : List ChecklistItem
  createdAt : Rat
deriving DecidableEq, Repr

/-! ## Zod schema semantics

Each parser is the semantics of the corresponding Zod schema declaration:
`none` is a validation failure, `some` carries the parsed value. -/

/-- Semantics of `z.string()`. -/
def parseString : JVal → Option String
  | .str s => some s
  | _ => none

/-- Semantics of `z.number()`. -/
def parseNumber : JVal → Option Rat
  | .num q => some q
  | _ => none

/-- Semantics of `z.boolean()`. -/
def parseBool : JVal → Option Bool
  | .bool b => some b
  | _ => none

/-- Semantics of `.optional()` around a schema: `undefined` (an absent field)
passes and reads as `none`; anything else must satisfy the inner schema. -/
def parseOptional {α : Type} (p : JVal → Option α) : JVal → Option (Option α)
  | .undefined => some none
  | v => (p v).map some

/-- Semantics of `z.number().nullable().optional()`, the shared shape of every
timestamp field of the analysis schemas. -/
def parseTimestamp : JVal → Option TsVal
  | .undefined => some .absent
  | .null => some .nullVal
  | .num q => some (.time q)
  | _ => none

/-- Semantics of `z.number().min(0).max(100)`, the shape of the four scores. -/
def parseScore : JVal → Option Rat
  | .num q => if 0 ≤ q ∧ q ≤ 100 then some q else none
  | _ => none

/-- Elementwise parsing of the payload of `z.array(s)`. -/
def parseList {α : Type} (p : JVal → Option α) : List JVal → Option (List α)
  | [] => some []
  | x :: xs =>
    (p x).bind fun y =>
    (parseList p xs).bind fun ys =>
    some (y :: ys)

/-- Semantics of `z.array(s)`: the value must be an array and every element
must satisfy the element schema. -/
def parseArray {α : Type} (p : JVal → Option α) : JVal → Option (List α)
  | .arr items => parseList p items
  | _ => none

/-- Semantics of `stageQualitySchema`. -/
def parseStageQuality : JVal → Option StageQuality
  | .str "poor" => some .poor
  | .str "ok" => some .ok
  | .str "good" => some .good
  | .str "excellent" => some .excellent
  | _ => none

/-- Semantics of `insightSeveritySchema`. -/
def parseInsightSeverity : JVal → Option InsightSeverity
  | .str "low" => some .low
  | .str "med" => some .med
  | .str "high" => some .high
  | _ => none

/-- Semantics of `evidenceSchema`. -/
def parseEvidence (v : JVal) : Option Evidence :=
  match v with
  | .obj fs =>
    (parseString (lookupField fs "quote")).bind fun quote =>
    (parseTimestamp (lookupField fs "timestamp")).bind fun timestamp =>
    some ⟨quote, timestamp⟩
  | _ => none

/-- Semantics of `stageEvaluationSchema`. -/
def parseStageEvaluation (v : JVal) : Option StageEvaluation :=
  match v with
  | .obj fs =>
    (parseBool (lookupField fs "present")).bind fun present =>
    (parseStageQuality (lookupField fs "quality")).bind fun quality =>
    (parseOptional (parseArray parseEvidence) (lookupField fs "evidence")).bind fun evidence =>
    (parseOptional parseString (lookupField fs "notes")).bind fun notes =>
    some ⟨present, quality, evidence, notes⟩
  | _ => none

/-- Semantics of `salesInsightSchema`. -/
def parseSalesInsight (v : JVal) : Option SalesInsight :=
  match v with
  | .obj fs =>
    (parseString (lookupField fs "snippet")).bind fun snippet =>
    (parseTimestamp (lookupField fs "timestamp")).bind fun timestamp =>
    (parseString (lookupField fs "note")).bind fun note =>
    (parseOptional parseInsightSeverity (lookupField fs "severity")).bind fun severity =>
    some ⟨snippet, timestamp, note, severity⟩
  | _ => none

/-- Semantics of `missedOpportunitySchema`. -/
def parseMissedOpportunity (v : JVal) : Option MissedOpportunity :=
  match v with
  | .obj fs =>
    (parseString (lookupField fs "recommendation")).bind fun recommendation =>
    (parseOptional parseString (lookupField fs "snippet")).bind fun snippet =>
    (parseTimestamp (lookupField fs "timestamp")).bind fun timestamp =>
    some ⟨recommendation, snippet, timestamp⟩
  | _ => none

/-- Semantics of `checklistItemSchema`. -/
def parseChecklistItem (v : JVal) : Option ChecklistItem :=
  match v with
  | .obj fs =>
    (parseString (lookupField fs "id")).bind fun id =>
    (parseString (lookupField fs "label")).bind fun label =>
    (parseBool (lookupField fs "passed")).bind fun passed =>
    (parseOptional parseString (lookupField fs "evidence")).bind fun evidence =>
    (parseTimestamp (lookupField fs "timestamp")).bind fun timestamp =>
    some ⟨id, label, passed, evidence, timestamp⟩
  | _ => none

/-- Semantics of the `scores` object schema of `analysisSchema`. -/
def parseScores (v : JVal) : Option Scores :=
  match v with
  | .obj fs =>
    (parseScore (lookupField fs "complianceOverall")).bind fun complianceOverall =>
    (parseScore (lookupField fs "clarity")).bind fun clarity =>
    (parseScore (lookupField fs "empathy")).bind fun empathy =>
    (parseScore (lookupField fs "professionalism")).bind fun professionalism =>
    some ⟨complianceOverall, clarity, empathy, professionalism⟩
  | _ => none

/-- Names of the six fixed stage keys of the `stages` object schema. -/
def stageKeys : List String :=
  ["introduction", "diagnosis", "solutionExplanation", "upsell",
   "maintenancePlan", "closing"]

/-- Semantics of the `stages` object schema of `analysisSchema`: all six stage
keys are required. -/
def parseStages (v : JVal) : Option AnalysisStages :=
  match v with
  | .obj fs =>
    (parseStageEvaluation (lookupField fs "introduction")).bind fun introduction =>
    (parseStageEvaluation (lookupField fs "diagnosis")).bind fun diagnosis =>
    (parseStageEvaluation (lookupField fs "solutionExplanation")).bind fun solutionExplanation =>
    (parseStageEvaluation (lookupField fs "upsell")).bind fun upsell =>
    (parseStageEvaluation (lookupField fs "maintenancePlan")).bind fun maintenancePlan =>
    (parseStageEvaluation (lookupField fs "closing")).bind fun closing =>
    some ⟨introduction, diagnosis, solutionExplanation, upsell, maintenancePlan, closing⟩
  | _ => none

/-- Semantics of `analysisSchema.parse`: `some` on success, `none` when the
value is rejected. -/
def analysisSchema_parse (v : JVal) : Option Analysis :=
  match v with
  | .obj fs =>
    (parseString (lookupField fs "summary")).bind fun summary =>
    (parseString (lookupField fs "generalFeedback")).bind fun generalFeedback =>
    (parseScores (lookupField fs "scores")).bind fun scores =>
    (parseString (lookupField fs "callTypePrediction")).bind fun callTypePrediction =>
    (parseStages (lookupField fs "stages")).bind fun stages =>
    (parseArray parseSalesInsight (lookupField fs "salesInsights")).bind fun salesInsights =>
    (parseArray parseMissedOpportunity (lookupField fs "missedOpportunities")).bind fun missedOpportunities =>
    (parseArray parseChecklistItem (lookupField fs "checklist")).bind fun checklist =>
    (parseNumber (lookupField fs "createdAt")).bind fun createdAt =>
    some ⟨summary, generalFeedback, scores, callTypePrediction, stages,
          salesInsights, missedOpportunities, checklist, createdAt⟩
  | _ => none

/-! ## Null-timestamp preprocessing

Embedding of `preprocessAnalysisData` of
`src/lib/adapters/assemblyai-transcription.adapter.ts`. -/

/-- Conditional of the source line
`timestamp: item.timestamp === null ? undefined : item.timestamp`. -/
def normNull : JVal → JVal
  | .null => .undefined
  | v => v

/-- Rewrite of one array element performed by each of the three `.map` calls
of `preprocessAnalysisData` and by the stage-evidence rewrite: the spread
copies the element and replaces its `timestamp` field.  (On a non-object
element the JavaScript spread would build a fresh object; the source only
receives parsed JSON objects in these arrays, and non-object elements are
rejected by the subsequent schema validation on every path that matters, so
they are returned unchanged here.) -/
def procTsItem (item : JVal) : JVal :=
  setField item "timestamp" (normNull (getF item "timestamp"))

/-- Stage rewrite of `preprocessAnalysisData`: when `stage?.evidence` is an
array, every element gets its `timestamp` normalized. -/
def procStage (stage : JVal) : JVal :=
  match getF stage "evidence" with
  | .arr items => setField stage "evidence" (.arr (items.map procTsItem))
  | _ => stage

/-- Rewrite of one of the three top-level arrays (`checklist`,
`salesInsights`, `missedOpportunities`): only applied when the field holds an
array, mirroring the `Array.isArray` guards. -/
def procArrayField (fields : List (String × JVal)) (key : String) :
    List (String × JVal) :=
  match lookupField fields key with
  | .arr items => setKey fields key (.arr (items.map procTsItem))
  | _ => fields

/-- Embedding of `preprocessAnalysisData`: `null` timestamps become
`undefined` in the three top-level finding arrays and in every
`stages.*.evidence` array.  Non-objects are returned unchanged per the
`typeof` guard.  (For an array argument the JavaScript spread would produce
an index-keyed object; the adapter only calls this function on the object
produced by `JSON.parse` of the model output, so that path is not modelled.) -/
def preprocessAnalysisData (data : JVal) : JVal :=
  match data with
  | .obj fields =>
    let d1 := procArrayField fields "checklist"
    let d2 := procArrayField d1 "salesInsights"
    let d3 := procArrayField d2 "missedOpportunities"
    let d4 :=
      match lookupField d3 "stages" with
      | .obj sfs => setKey d3 "stages" (.obj (sfs.map (fun kv => (kv.1, procStage kv.2))))
      | _ => d3
    .obj d4
  | other => other

/-! Typed counterparts of the normalization, used to state what preprocessing
does to a value that the schema accepts. -/

/-- Typed effect of `normNull` on a parsed timestamp. -/
def normTs : TsVal → TsVal
  | .nullVal => .absent
  | t => t

/-- Typed effect of preprocessing on one parsed evidence entry. -/
def normEvidence (e : Evidence) : Evidence :=
  { e with timestamp := normTs e.timestamp }

/-- Typed effect of preprocessing on one parsed stage evaluation. -/
def normStageEvaluation (s : StageEvaluation) : StageEvaluation :=
  { s with evidence := s.evidence.map (fun es => es.map normEvidence) }

/-- Typed effect of preprocessing on the six parsed stages. -/
def normStages (s : AnalysisStages) : AnalysisStages :=
  { introduction := normStageEvaluation s.introduction
    diagnosis := normStageEvaluation s.diagnosis
    solutionExplanation := normStageEvaluation s.solutionExplanation
    upsell := normStageEvaluation s.upsell
    maintenancePlan := normStageEvaluation s.maintenancePlan
    closing := normStageEvaluation s.closing }

/-- Typed effect of preprocessing on a parsed analysis: every timestamp of the
three finding arrays and of every stage-evidence entry has `null` replaced by
absence. -/
def normAnalysis (a : Analysis) : Analysis :=
  { a with
    stages := normStages a.stages
    salesInsights := a.salesInsights.map (fun i => { i with timestamp := normTs i.timestamp })
    missedOpportunities := a.missedOpportunities.map (fun o => { o with timestamp := normTs o.timestamp })
    checklist := a.checklist.map (fun c => { c with timestamp := normTs c.timestamp }) }

/-- Collection of every optional timestamp of a parsed analysis: the three
finding arrays and the evidence of each of the six stages. -/
def timestampsOf (a : Analysis) : List TsVal :=
  a.checklist.map (fun c => c.timestamp) ++
  a.salesInsights.map (fun i => i.timestamp) ++
  a.missedOpportunities.map (fun o => o.timestamp) ++
  ([a.stages.introduction, a.stages.diagnosis, a.stages.solutionExplanation,
    a.stages.upsell, a.stages.maintenancePlan, a.stages.closing].flatMap
      (fun s => (s.evidence.getD []).map (fun e => e.timestamp)))

/-! ## Transcript data model

Typed images of `transcriptSchema` (`src/types/models.ts`). -/

/-- Speaker label enum of `speakerLabelSchema`. -/
inductive SpeakerLabel where
  | tech
  | customer
  | unknown
deriving DecidableEq, Repr

/-- One transcript segment (`transcriptSegmentSchema`). -/
structure TranscriptSegment where
  start : Rat
  «end» : Rat
  speaker : SpeakerLabel
  text : String
deriving DecidableEq, Repr

/-- One transcript (`transcriptSchema`); the provider is kept as a string. -/
structure Transcript where
  text : String
  segments : List TranscriptSegment
  provider : String
  confidence : Option Rat
deriving DecidableEq, Repr

/-! ## AssemblyAI adapter: transcript conversion and speaker-role inference

Embedding of `convertToTranscript` and `identifyTechSpeaker` of
`src/lib/adapters/assemblyai-transcription.adapter.ts`.  Provider word and
utterance timings are in milliseconds; the adapter divides by 1000. -/

/-- One word of the provider result (`assemblyTranscript.words[i]`). -/
structure AWord where
  speaker : String
  start : Rat
  «end» : Rat
  text : String
deriving DecidableEq, Repr

/-- One utterance of the provider result. -/
structure AUtterance where
  speaker : String
  start : Rat
  «end» : Rat
  text : String
deriving DecidableEq, Repr

/-- One raw segment before speaker-role mapping, as built inside
`convertToTranscript` (times already converted to seconds). -/
structure RawSeg where
  speaker : String
  start : Rat
  «end» : Rat
  text : String
deriving DecidableEq, Repr

/-- Provider transcript data as consumed by `convertToTranscript`: `none`
models an absent (or non-array) `utterances`/`words` field. -/
structure AssemblyTranscript where
  utterances : Option (List AUtterance)
  words : Option (List AWord)
  text : Option String
  confidence : Option Rat

/-- Start of a new current segment from one word (the
`currentSegment = ...` branch of the word loop). -/
def newSegment (w : AWord) : RawSeg :=
  { speaker := w.speaker, start := w.start / 1000, «end» := w.«end» / 1000, text := w.text }

/-- Extension of the current segment by one word of the same speaker (the
`else` branch of the word loop). -/
def extendSegment (c : RawSeg) (w : AWord) : RawSeg :=
  { c with «end» := w.«end» / 1000, text := c.text ++ " " ++ w.text }

/-- The word loop of `convertToTranscript`: `cur` is `currentSegment`, pushed
when the speaker changes and once more after the loop. -/
def wordLoop : Option RawSeg → List AWord → List RawSeg
  | none, [] => []
  | some c, [] => [c]
  | none, w :: ws => wordLoop (some (newSegment w)) ws
  | some c, w :: ws =>
    if w.speaker = c.speaker then wordLoop (some (extendSegment c w)) ws
    else c :: wordLoop (some (newSegment w)) ws

/-- Fallback segment construction of `convertToTranscript`: grouping of the
word list into speaker segments. -/
def buildWordSegments (ws : List AWord) : List RawSeg :=
  wordLoop none ws

/-- Distinct speaker tags in order of first appearance: the key set of the
`speakerGroups` record built by `identifyTechSpeaker` (JavaScript object keys
enumerate in insertion order). -/
def speakersOf (segs : List RawSeg) : List String :=
  segs.foldl (fun acc s => if s.speaker ∈ acc then acc else acc ++ [s.speaker]) []

/-- Comparison `speaker.toUpperCase() === techSpeaker` of the mapping loop,
where `techSpeaker` is `response.techSpeaker?.toUpperCase()`: an absent
`techSpeaker` field compares unequal to every tag. -/
def matchesTechTag (techTag : Option String) (speaker : String) : Bool :=
  match techTag with
  | some t => speaker.toUpper = t.toUpper
  | none => false

/-- Embedding of `identifyTechSpeaker`.  The outcome of the content-based
attempt (OpenAI call plus response parsing) is a parameter:
`none` models any throw inside the `try` block (missing `OPENAI_API_KEY`,
request failure, malformed response JSON), which the source catches and
answers with the positional fallback; `some techTag` models a successfully
parsed response whose optional `techSpeaker` field is `techTag`. -/
def identifyTechSpeaker (segs : List RawSeg) (llmOutcome : Option (Option String)) :
    List (String × SpeakerLabel) :=
  match speakersOf segs with
  | [] => []
  | [s] => [(s, .unknown)]
  | s₀ :: rest =>
    match llmOutcome with
    | none => (s₀, .tech) :: rest.map (fun sp => (sp, .customer))
    | some techTag =>
      (s₀ :: rest).map (fun sp =>
        (sp, if matchesTechTag techTag sp then SpeakerLabel.tech else SpeakerLabel.customer))

/-- Lookup `speakerMapping[seg.speaker] || unknown` of the final mapping. -/
def mapSpeaker (mapping : List (String × SpeakerLabel)) (sp : String) : SpeakerLabel :=
  match mapping.lookup sp with
  | some l => l
  | none => .unknown

/-- Embedding of `convertToTranscript`: raw segments from utterances when
available, otherwise from the word-merging fallback, then speaker-role
mapping. -/
def convertToTranscript (payload : AssemblyTranscript)
    (llmOutcome : Option (Option String)) : Transcript :=
  let rawSegments : List RawSeg :=
    match payload.utterances with
    | some us => us.map (fun u => ⟨u.speaker, u.start / 1000, u.«end» / 1000, u.text⟩)
    | none =>
      match payload.words with
      | some ws => buildWordSegments ws
      | none => []
  let speakerMapping := identifyTechSpeaker rawSegments llmOutcome
  { text := payload.text.getD ""
    segments := rawSegments.map (fun seg =>
      { start := seg.start, «end» := seg.«end»,
        speaker := mapSpeaker speakerMapping seg.speaker, text := seg.text })
    provider := "assemblyai"
    confidence := payload.confidence }

/-! Specification-side description of the word-merging fallback, written from
the words of the claim: each maximal run of consecutive words of one speaker
becomes one segment, with the start of the first word, the end of the last
word and the texts joined in order. -/

/-- Join of the word texts of a run, separated by single spaces. -/
def joinWords (first : String) (rest : List String) : String :=
  rest.foldl (fun acc t => acc ++ " " ++ t) first

/-- End (in seconds) of the last word of a run, with a default for the
single-word run. -/
def lastEndOf (d : Rat) (run : List AWord) : Rat :=
  run.foldl (fun _ w => w.«end» / 1000) d

/-- The one segment a maximal run `w :: run` merges to. -/
def runSegment (w : AWord) (run : List AWord) : RawSeg :=
  { speaker := w.speaker
    start := w.start / 1000
    «end» := lastEndOf (w.«end» / 1000) run
    text := joinWords w.text (run.map (fun x => x.text)) }

/-- Specification-side segment list: the word list is split into maximal runs
of consecutive words of one speaker and every run merges to one segment. -/
def mergedSegments : List AWord → List RawSeg
  | [] => []
  | w :: ws =>
    runSegment w (ws.takeWhile (fun x => x.speaker == w.speaker)) ::
    mergedSegments (ws.dropWhile (fun x => x.speaker == w.speaker))
termination_by ws => ws.length
decreasing_by
  simp only [List.length_cons]
  exact Nat.lt_succ_of_le (List.dropWhile_sublist _).length_le

/-! ## Orchestrator state

Server-side state shared by the API route handlers: the `calls` Firestore
collection, the process-wide in-memory `processedWebhooks` table of the
webhook route, a count of dispatched fire-and-forget analysis triggers, and a
log of the performed call-document writes (one entry per awaited
`adminDb().collection(\x22calls\x22).doc(..).update(..)` that sets a status). -/

/-- Call lifecycle status (`callStatusSchema`). -/
inductive CallStatus where
  | created
  | uploading
  | transcribing
  | transcribed
  | analyzing
  | complete
  | failed
deriving DecidableEq, Repr

/-- One call document (the fields the embedded handlers read or write). -/
structure Call where
  id : String
  status : CallStatus
  transcriptionJobId : Option String
  transcript : Option Transcript
  analysis : Option Analysis
  updatedAt : Nat
deriving DecidableEq, Repr

/-- Record of one performed status-setting document update, for counting
mutations: which call, the status written, and whether the same update also
wrote the transcript field. -/
structure WriteEvent where
  callId : String
  newStatus : CallStatus
  wroteTranscript : Bool
deriving DecidableEq, Repr

/-- The server state threaded through the handlers. -/
structure ServerState where
  calls : List Call
  processedWebhooks : List String
  analysisTriggers : Nat
  events : List WriteEvent
deriving DecidableEq, Repr

/-- Document fetch by id (`adminDb().collection(\x22calls\x22).doc(callId).get()`). -/
def findCall (calls : List Call) (callId : String) : Option Call :=
  calls.find? (fun c => c.id == callId)

/-- Query of the webhook route:
`.where(\x22transcriptionJobId\x22, \x22==\x22, jobId).limit(1)`. -/
def findCallByJobId (calls : List Call) (jobId : String) : Option Call :=
  calls.find? (fun c => c.transcriptionJobId == some jobId)

/-- Document update by id (`.doc(callId).update(..)`); ignored when the id is
absent. -/
def updateCall (calls : List Call) (callId : String) (f : Call → Call) : List Call :=
  calls.map (fun c => if c.id == callId then f c else c)

/-- Status of a call document, when present. -/
def callStatus (st : ServerState) (callId : String) : Option CallStatus :=
  (findCall st.calls callId).map (fun c => c.status)

/-! ## Webhook route

Embedding of `POST` of `src/app/api/webhooks/transcription/route.ts`.
The payload has already passed `transcriptionWebhookSchema` (its `status` is
an arbitrary string). -/

/-- Parsed webhook payload (`transcriptionWebhookSchema`). -/
structure WebhookPayload where
  jobId : String
  status : String
  transcript : Option Transcript
  error : Option String

/-- Responses of the webhook route. -/
inductive WebhookResponse where
  | invalidSignature
  | alreadyProcessed
  | callNotFound
  | success (callId : String)
  | failedAck (callId : String) (error : Option String)
  | unknownStatus
deriving DecidableEq, Repr

/-- The webhook handler.  `sigValid` is the result of `verifyWebhook`,
`isProduction` the `NODE_ENV === \x22production\x22` test, `now` the value of
`Date.now()` during this request. -/
def webhookPOST (st : ServerState) (sigValid : Bool) (isProduction : Bool)
    (payload : WebhookPayload) (now : Nat) : WebhookResponse × ServerState :=
  if !sigValid && isProduction then
    (.invalidSignature, st)
  else if payload.jobId ∈ st.processedWebhooks then
    (.alreadyProcessed, st)
  else
    match findCallByJobId st.calls payload.jobId with
    | none => (.callNotFound, st)
    | some call =>
      match payload.status, payload.transcript with
      | "completed", some t =>
        (.success call.id,
         { st with
           calls := updateCall st.calls call.id (fun c =>
             { c with transcript := some t, status := .transcribed, updatedAt := now })
           analysisTriggers := st.analysisTriggers + 1
           processedWebhooks := payload.jobId :: st.processedWebhooks
           events := st.events ++ [⟨call.id, .transcribed, true⟩] })
      | status, _ =>
        if status = "failed" then
          (.failedAck call.id payload.error,
           { st with
             calls := updateCall st.calls call.id (fun c =>
               { c with status := .failed, updatedAt := now })
             events := st.events ++ [⟨call.id, .failed, false⟩] })
        else
          (.unknownStatus, st)

/-! ## Polling route

Embedding of `GET` of `src/app/api/calls/[callId]/poll-transcription/route.ts`. -/

/-- Result of `transcriptionAdapter.getJobStatus(jobId)`, an external call
passed in as a parameter. -/
structure JobStatusResult where
  status : String
  transcript : Option Transcript

/-- Responses of the polling route. -/
inductive PollResponse where
  | callNotFound
  | noJobId
  | completed (t : Transcript)
  | failed
  | inProgress (status : String)
deriving DecidableEq, Repr

/-- The polling handler.  Note that it never consults nor extends the
`processedWebhooks` table of the webhook route. -/
def pollGET (st : ServerState) (callId : String) (job : JobStatusResult)
    (now : Nat) : PollResponse × ServerState :=
  match findCall st.calls callId with
  | none => (.callNotFound, st)
  | some call =>
    match call.transcriptionJobId with
    | none => (.noJobId, st)
    | some _ =>
      match job.status, job.transcript with
      | "completed", some t =>
        (.completed t,
         { st with
           calls := updateCall st.calls callId (fun c =>
             { c with transcript := some t, status := .transcribed, updatedAt := now })
           analysisTriggers := st.analysisTriggers + 1
           events := st.events ++ [⟨callId, .transcribed, true⟩] })
      | status, _ =>
        if status = "failed" then
          (.failed,
           { st with
             calls := updateCall st.calls callId (fun c =>
               { c with status := .failed, updatedAt := now })
             events := st.events ++ [⟨callId, .failed, false⟩] })
        else
          (.inProgress status, st)

/-! ## Start-transcription route

Embedding of `POST` of `src/app/api/calls/[callId]/start-transcription/route.ts`. -/

/-- Responses of the start-transcription route. -/
inductive StartTranscriptionResponse where
  | callNotFound
  | fileMissing
  | providerError (details : String)
  | success (jobId : String)
deriving DecidableEq, Repr

/-- The start-transcription handler.  `fileExistsCheck` is the outcome of the
optional storage existence check (`none` when the active adapter does not
perform it); `startJobResult` is the outcome of the awaited
`transcriptionAdapter.startJob(..)`, `Except.error` modelling a throw, which
the catch block answers with a 500 response without touching the document. -/
def startTranscriptionPOST (st : ServerState) (callId : String)
    (fileExistsCheck : Option Bool) (startJobResult : Except String String)
    (now : Nat) : StartTranscriptionResponse × ServerState :=
  match findCall st.calls callId with
  | none => (.callNotFound, st)
  | some _ =>
    if fileExistsCheck = some false then
      (.fileMissing, st)
    else
      match startJobResult with
      | .error e => (.providerError e, st)
      | .ok jobId =>
        (.success jobId,
         { st with
           calls := updateCall st.calls callId (fun c =>
             { c with transcriptionJobId := some jobId, status := .transcribing,
                      updatedAt := now })
           events := st.events ++ [⟨callId, .transcribing, false⟩] })

/-! ## Run-analysis route

Embedding of `POST` of `src/app/api/analysis/run/route.ts`.  The handler
reads the request body twice: once at the top of the `try` block and once
more inside the `catch` block.  Per the Fetch standard a request body is a
stream consumed by the first read; the model therefore carries a `bodyUsed`
flag, and `requestJson` yields `none` (a rejected promise) for a second read. -/

/-- Parsed request body: a well-formed `runAnalysisRequestSchema` body with
its `callId`, or anything else (malformed JSON or a shape rejected by Zod). -/
inductive RunBody where
  | valid (callId : String)
  | malformed
deriving DecidableEq, Repr

/-- An inbound request with its one-shot body stream. -/
structure RunRequest where
  body : RunBody
  bodyUsed : Bool
deriving DecidableEq, Repr

/-- Semantics of `await request.json()`: the first read consumes the body,
any further read rejects (`none`). -/
def requestJson (r : RunRequest) : Option RunBody × RunRequest :=
  if r.bodyUsed then (none, r)
  else (some r.body, { r with bodyUsed := true })

/-- Responses of the run-analysis route. -/
inductive RunResponse where
  | invalidBody
  | callNotFound
  | noTranscript
  | analysisFailed (details : String)
  | success (callId : String)
deriving DecidableEq, Repr

/-- Outcome of the awaited `llmAdapter.analyze(..)` call. -/
inductive AnalysisOutcome where
  | ok (a : Analysis)
  | throws (msg : String)

/-- The `catch` block of the run-analysis route: it re-reads the request body
with `await request.json().catch(() => (\x7b\x7d))` and marks the call failed
only when that body still exposes a `callId`. -/
def runAnalysisCatch (req : RunRequest) (st : ServerState) (resp : RunResponse)
    (now : Nat) : RunResponse × ServerState :=
  match (requestJson req).1 with
  | some (.valid callId) =>
    (resp,
     { st with
       calls := updateCall st.calls callId (fun c =>
         { c with status := .failed, updatedAt := now })
       events := st.events ++ [⟨callId, .failed, false⟩] })
  | _ => (resp, st)

/-- The run-analysis handler.  On success the analysis is stamped with
`createdAt := now` and written together with `status := complete`; the
`removeUndefinedValues` cleaning of the source is the identity on the typed
analysis value (absent optional fields are already absent) and is therefore
not separately modelled. -/
def runAnalysisPOST (req : RunRequest) (st : ServerState)
    (outcome : AnalysisOutcome) (now : Nat) : RunResponse × ServerState :=
  let (body, req1) := requestJson req
  match body with
  | none => runAnalysisCatch req1 st .invalidBody now
  | some .malformed => runAnalysisCatch req1 st .invalidBody now
  | some (.valid callId) =>
    match findCall st.calls callId with
    | none => (.callNotFound, st)
    | some call =>
      match call.transcript with
      | none => (.noTranscript, st)
      | some _ =>
        let st1 : ServerState :=
          { st with
            calls := updateCall st.calls callId (fun c =>
              { c with status := .analyzing, updatedAt := now })
            events := st.events ++ [⟨callId, .analyzing, false⟩] }
        match outcome with
        | .ok a =>
          (.success callId,
           { st1 with
             calls := updateCall st1.calls callId (fun c =>
               { c with analysis := some { a with createdAt := (now : Rat) },
                        status := .complete, updatedAt := now })
             events := st1.events ++ [⟨callId, .complete, false⟩] })
        | .throws msg => runAnalysisCatch req1 st1 (.analysisFailed msg) now

/-! ## Concrete scenario values used by the claim instances -/

/-- Run of `extendSegment` over a word list (the repeated `else` branch of
the word loop), introduced to state the loop invariant. -/
def extendAll (c : RawSeg) (run : List AWord) : RawSeg :=
  run.foldl extendSegment c

/-- Concrete call used by the webhook/poll convergence scenario: one call in
`transcribing` whose transcription job is `j1`. -/
def pollDemoCall : Call :=
  ⟨"c1", .transcribing, some "j1", none, none, 0⟩

/-- Concrete transcript delivered for job `j1`. -/
def pollDemoTranscript : Transcript :=
  ⟨"Hello", [⟨0, 5, .tech, "Hello"⟩], "assemblyai", none⟩

/-- Initial store of the convergence scenario. -/
def pollDemoState0 : ServerState :=
  { calls := [pollDemoCall], processedWebhooks := [], analysisTriggers := 0,
    events := [] }

/-- Store after the webhook path has processed the completed job `j1`. -/
def pollDemoState1 : ServerState :=
  (webhookPOST pollDemoState0 true false
    ⟨"j1", "completed", some pollDemoTranscript, none⟩ 1).2

/-- Stage JSON of the C5 scenario: one evidence entry with a null timestamp. -/
def c5stage : JVal :=
  .obj [("present", .bool true), ("quality", .str "good"),
        ("evidence", .arr [.obj [("quote", .str "q"), ("timestamp", .null)]])]

/-- Analysis-shaped JSON whose every optional timestamp is null. -/
def c5v : JVal :=
  .obj [("summary", .str "sum"), ("generalFeedback", .str "fb"),
        ("scores", .obj [("complianceOverall", .num 80), ("clarity", .num 75),
                         ("empathy", .num 70), ("professionalism", .num 85)]),
        ("callTypePrediction", .str "repair"),
        ("stages", .obj [("introduction", c5stage), ("diagnosis", c5stage),
                         ("solutionExplanation", c5stage), ("upsell", c5stage),
                         ("maintenancePlan", c5stage), ("closing", c5stage)]),
        ("salesInsights", .arr [.obj [("snippet", .str "s"), ("timestamp", .null),
                                      ("note", .str "n")]]),
        ("missedOpportunities", .arr [.obj [("recommendation", .str "r"),
                                            ("timestamp", .null)]]),
        ("checklist", .arr [.obj [("id", .str "i1"), ("label", .str "l"),
                                  ("passed", .bool true), ("timestamp", .null)]]),
        ("createdAt", .num 0)]

/-- Typed parse of `c5stage`. -/
def c5stageParsed : StageEvaluation :=
  ⟨true, .good, some [⟨"q", .nullVal⟩], none⟩

/-- Typed parse of `c5v`. -/
def c5analysis : Analysis :=
  ⟨"sum", "fb", ⟨80, 75, 70, 85⟩, "repair",
   ⟨c5stageParsed, c5stageParsed, c5stageParsed, c5stageParsed, c5stageParsed,
    c5stageParsed⟩,
   [⟨"s", .nullVal, "n", none⟩], [⟨"r", none, .nullVal⟩],
   [⟨"i1", "l", true, none, .nullVal⟩], 0⟩

/-- The non-integer score 101/2 of the C8 counterexample, written as an
explicit reduced fraction so that kernel evaluation of the schema semantics
stays definitional. -/
def c8half : Rat := ⟨101, 2, by decide, by decide⟩

/-- Stage JSON of the C8 counterexample (no evidence, minimal). -/
def c8stage : JVal :=
  .obj [("present", .bool false), ("quality", .str "poor")]

/-- Analysis-shaped JSON whose `clarity` score is the non-integer 101/2 and
whose two checklist items share the id `dup`. -/
def c8v : JVal :=
  .obj [("summary", .str "sum"), ("generalFeedback", .str "fb"),
        ("scores", .obj [("complianceOverall", .num 80), ("clarity", .num c8half),
                         ("empathy", .num 70), ("professionalism", .num 85)]),
        ("callTypePrediction", .str "repair"),
        ("stages", .obj [("introduction", c8stage), ("diagnosis", c8stage),
                         ("solutionExplanation", c8stage), ("upsell", c8stage),
                         ("maintenancePlan", c8stage), ("closing", c8stage)]),
        ("salesInsights", .arr []),
        ("missedOpportunities", .arr []),
        ("checklist", .arr [.obj [("id", .str "dup"), ("label", .str "l1"),
                                  ("passed", .bool true)],
                            .obj [("id", .str "dup"), ("label", .str "l2"),
                                  ("passed", .bool false)]]),
        ("createdAt", .num 0)]

/-- Typed parse of `c8stage`. -/
def c8stageParsed : StageEvaluation :=
  ⟨false, .poor, none, none⟩

/-- Typed parse of `c8v`. -/
def c8analysis : Analysis :=
  ⟨"sum", "fb", ⟨80, c8half, 70, 85⟩, "repair",
   ⟨c8stageParsed, c8stageParsed, c8stageParsed, c8stageParsed, c8stageParsed,
    c8stageParsed⟩,
   [], [],
   [⟨"dup", "l1", true, none, .absent⟩, ⟨"dup", "l2", false, none, .absent⟩], 0⟩

/-! ## Helper lemmas on call stores -/

/-- Mapping with a predicate-preserving function commutes with `find?`. -/
theorem find?_map_of_pred {α : Type} (g : α → α) (p : α → Bool)
    (h : ∀ c, p (g c) = p c) (l : List α) :
    (l.map g).find? p = (l.find? p).map g := by
  induction l with
  | nil => rfl
  | cons x xs ih =>
    simp only [List.map_cons]
    cases hx : p x with
    | true =>
      rw [List.find?_cons_of_pos _ ((h x).trans hx), List.find?_cons_of_pos _ hx]
      rfl
    | false =>
      rw [List.find?_cons_of_neg _ (by simp [h x, hx]), List.find?_cons_of_neg _ (by simp [hx])]
      exact ih

/-- In a store with distinct document ids, a member is what its id finds. -/
theorem findCall_eq_of_mem (calls : List Call) (call : Call)
    (hmem : call ∈ calls) (hids : (calls.map (fun c => c.id)).Nodup) :
    findCall calls call.id = some call := by
  induction calls with
  | nil => cases hmem
  | cons c cs ih =>
    simp only [List.map_cons, List.nodup_cons] at hids
    rcases List.mem_cons.mp hmem with rfl | hm
    · simp [findCall]
    · have hne : (c.id == call.id) = false := by
        refine beq_eq_false_iff_ne.mpr (fun he => hids.1 ?_)
        rw [he]
        exact List.mem_map_of_mem _ hm
      rw [findCall, List.find?_cons_of_neg _ (by simp [hne])]
      exact ih hm hids.2

/-- An update with an id-preserving field rewrite is seen by a fetch of the
updated id as that rewrite. -/
theorem findCall_updateCall_self (calls : List Call) (callId : String)
    (f : Call → Call) (hid : ∀ c, (f c).id = c.id) :
    findCall (updateCall calls callId f) callId = (findCall calls callId).map f := by
  unfold findCall updateCall
  rw [find?_map_of_pred _ _ (fun c => by by_cases h : (c.id == callId) = true <;> simp_all [hid c])]
  cases hfind : calls.find? (fun c => c.id == callId) with
  | none => rfl
  | some c =>
    have := List.find?_some hfind
    simp_all

/-- An update with an id- and job-preserving field rewrite is seen by the
job-id query as that rewrite of the found document. -/
theorem findCallByJobId_updateCall (calls : List Call) (call : Call)
    (jobId : String) (f : Call → Call)
    (hjob : ∀ c, (f c).transcriptionJobId = c.transcriptionJobId)
    (hfind : findCallByJobId calls jobId = some call) :
    findCallByJobId (updateCall calls call.id f) jobId = some (f call) := by
  unfold findCallByJobId updateCall
  rw [find?_map_of_pred _ _ (fun c => by by_cases hc : c.id = call.id <;> simp [hc, hjob c]) calls]
  unfold findCallByJobId at hfind
  rw [hfind]
  simp

/-! ## Claim theorems -/

/-- Claim C1: delivering the same completed transcription webhook payload
twice results in exactly one transcript write and one transition from
`transcribing` to `transcribed`; the second delivery is answered with the
already-processed acknowledgment and performs no additional mutation of any
state (the returned state of the second delivery is the state after the
first). -/
theorem webhook_completed_delivery_idempotent
    (st : ServerState) (jobId : String) (t : Transcript) (call : Call)
    (now1 now2 : Nat)
    (hids : (st.calls.map (fun c => c.id)).Nodup)
    (hfind : findCallByJobId st.calls jobId = some call)
    (_hstatus : call.status = .transcribing)
    (hnew : jobId ∉ st.processedWebhooks) :
    ∃ st1,
      webhookPOST st true false ⟨jobId, "completed", some t, none⟩ now1 =
        (.success call.id, st1) ∧
      callStatus st1 call.id = some .transcribed ∧
      (findCall st1.calls call.id).map (fun c => c.transcript) = some (some t) ∧
      st1.events = st.events ++ [⟨call.id, .transcribed, true⟩] ∧
      st1.analysisTriggers = st.analysisTriggers + 1 ∧
      webhookPOST st1 true false ⟨jobId, "completed", some t, none⟩ now2 =
        (.alreadyProcessed, st1) := by
  have hmem : call ∈ st.calls := List.mem_of_find?_eq_some hfind
  have hself : findCall st.calls call.id = some call :=
    findCall_eq_of_mem _ _ hmem hids
  have hr1 : webhookPOST st true false ⟨jobId, "completed", some t, none⟩ now1 =
      (.success call.id,
       { st with
         calls := updateCall st.calls call.id (fun c =>
           { c with transcript := some t, status := .transcribed, updatedAt := now1 })
         analysisTriggers := st.analysisTriggers + 1
         processedWebhooks := jobId :: st.processedWebhooks
         events := st.events ++ [⟨call.id, .transcribed, true⟩] }) := by
    simp [webhookPOST, hnew, hfind]
  refine ⟨_, hr1, ?_, ?_, rfl, rfl, ?_⟩
  · rw [callStatus]
    dsimp only
    rw [findCall_updateCall_self st.calls call.id
          (fun c => { c with transcript := some t, status := .transcribed, updatedAt := now1 })
          (fun c => rfl), hself]
    rfl
  · dsimp only
    rw [findCall_updateCall_self st.calls call.id
          (fun c => { c with transcript := some t, status := .transcribed, updatedAt := now1 })
          (fun c => rfl), hself]
    rfl
  · simp [webhookPOST]

/-- Concrete instance of the C1 theorem: one call in `transcribing` with job
`j1`, a completed payload delivered twice. -/
theorem webhook_completed_delivery_idempotent_witness :
    ∃ st1,
      webhookPOST
          { calls := [⟨"c1", .transcribing, some "j1", none, none, 0⟩],
            processedWebhooks := [], analysisTriggers := 0, events := [] }
          true false
          ⟨"j1", "completed",
           some ⟨"Hello", [⟨0, 5, .tech, "Hello"⟩], "assemblyai", none⟩, none⟩ 1 =
        (.success "c1", st1) ∧
      callStatus st1 "c1" = some .transcribed ∧
      (findCall st1.calls "c1").map (fun c => c.transcript) =
        some (some ⟨"Hello", [⟨0, 5, .tech, "Hello"⟩], "assemblyai", none⟩) ∧
      st1.events = [] ++ [⟨"c1", .transcribed, true⟩] ∧
      st1.analysisTriggers = 0 + 1 ∧
      webhookPOST st1 true false
          ⟨"j1", "completed",
           some ⟨"Hello", [⟨0, 5, .tech, "Hello"⟩], "assemblyai", none⟩, none⟩ 2 =
        (.alreadyProcessed, st1) :=
  webhook_completed_delivery_idempotent
    { calls := [⟨"c1", .transcribing, some "j1", none, none, 0⟩],
      processedWebhooks := [], analysisTriggers := 0, events := [] }
    "j1" ⟨"Hello", [⟨0, 5, .tech, "Hello"⟩], "assemblyai", none⟩
    ⟨"c1", .transcribing, some "j1", none, none, 0⟩ 1 2
    (by decide) rfl rfl (by decide)

/-- Claim C10: a failed-status webhook delivery is never recorded in the
in-memory idempotency table (only the completed path records the job id), so
redelivering the same failed payload repeats the failed-status update with a
freshly bumped `updatedAt` instead of the already-processed acknowledgment. -/
theorem webhook_failed_delivery_not_recorded
    (st : ServerState) (jobId err : String) (call : Call) (now1 now2 : Nat)
    (hids : (st.calls.map (fun c => c.id)).Nodup)
    (hfind : findCallByJobId st.calls jobId = some call)
    (hnew : jobId ∉ st.processedWebhooks) :
    ∃ st1 st2,
      webhookPOST st true false ⟨jobId, "failed", none, some err⟩ now1 =
        (.failedAck call.id (some err), st1) ∧
      jobId ∉ st1.processedWebhooks ∧
      callStatus st1 call.id = some .failed ∧
      (findCall st1.calls call.id).map (fun c => c.updatedAt) = some now1 ∧
      webhookPOST st1 true false ⟨jobId, "failed", none, some err⟩ now2 =
        (.failedAck call.id (some err), st2) ∧
      callStatus st2 call.id = some .failed ∧
      (findCall st2.calls call.id).map (fun c => c.updatedAt) = some now2 ∧
      st2.events = st.events ++
        [⟨call.id, .failed, false⟩, ⟨call.id, .failed, false⟩] := by
  have hmem : call ∈ st.calls := List.mem_of_find?_eq_some hfind
  have hself : findCall st.calls call.id = some call :=
    findCall_eq_of_mem _ _ hmem hids
  have hr1 : webhookPOST st true false ⟨jobId, "failed", none, some err⟩ now1 =
      (.failedAck call.id (some err),
       { st with
         calls := updateCall st.calls call.id (fun c =>
           { c with status := .failed, updatedAt := now1 })
         events := st.events ++ [⟨call.id, .failed, false⟩] }) := by
    simp [webhookPOST, hnew, hfind]
  have hfind1 : findCallByJobId
      (updateCall st.calls call.id (fun c => { c with status := .failed, updatedAt := now1 }))
      jobId = some { call with status := .failed, updatedAt := now1 } :=
    findCallByJobId_updateCall _ _ _ _ (fun c => rfl) hfind
  have hsub1 : findCall
      (updateCall st.calls call.id (fun c => { c with status := .failed, updatedAt := now1 }))
      call.id = some { call with status := .failed, updatedAt := now1 } := by
    rw [findCall_updateCall_self st.calls call.id
          (fun c => { c with status := .failed, updatedAt := now1 }) (fun c => rfl), hself]
    rfl
  have hr2 : webhookPOST
      { st with
        calls := updateCall st.calls call.id (fun c =>
          { c with status := .failed, updatedAt := now1 })
        events := st.events ++ [⟨call.id, .failed, false⟩] }
      true false ⟨jobId, "failed", none, some err⟩ now2 =
      (.failedAck call.id (some err),
       { st with
         calls := updateCall
           (updateCall st.calls call.id (fun c =>
             { c with status := .failed, updatedAt := now1 }))
           call.id (fun c => { c with status := .failed, updatedAt := now2 })
         events := (st.events ++ [⟨call.id, .failed, false⟩]) ++
           [⟨call.id, .failed, false⟩] }) := by
    simp [webhookPOST, hnew, hfind1]
  have hsub2 : findCall
      (updateCall
        (updateCall st.calls call.id (fun c =>
          { c with status := .failed, updatedAt := now1 }))
        call.id (fun c => { c with status := .failed, updatedAt := now2 }))
      call.id =
      some { call with status := .failed, updatedAt := now2 } := by
    rw [findCall_updateCall_self _ call.id
          (fun c => { c with status := .failed, updatedAt := now2 }) (fun c => rfl), hsub1]
    rfl
  refine ⟨_, _, hr1, hnew, ?_, ?_, hr2, ?_, ?_, ?_⟩
  · rw [callStatus]
    dsimp only
    rw [hsub1]
    rfl
  · dsimp only
    rw [hsub1]
    rfl
  · rw [callStatus]
    dsimp only
    rw [hsub2]
    rfl
  · dsimp only
    rw [hsub2]
    rfl
  · simp

/-- Concrete instance of the C10 theorem: a failed payload for job `j1`
delivered twice updates the call twice and is never acknowledged as already
processed. -/
theorem webhook_failed_delivery_not_recorded_witness :
    ∃ st1 st2,
      webhookPOST
          { calls := [⟨"c1", .transcribing, some "j1", none, none, 0⟩],
            processedWebhooks := [], analysisTriggers := 0, events := [] }
          true false ⟨"j1", "failed", none, some "timeout"⟩ 1 =
        (.failedAck "c1" (some "timeout"), st1) ∧
      "j1" ∉ st1.processedWebhooks ∧
      callStatus st1 "c1" = some .failed ∧
      (findCall st1.calls "c1").map (fun c => c.updatedAt) = some 1 ∧
      webhookPOST st1 true false ⟨"j1", "failed", none, some "timeout"⟩ 2 =
        (.failedAck "c1" (some "timeout"), st2) ∧
      callStatus st2 "c1" = some .failed ∧
      (findCall st2.calls "c1").map (fun c => c.updatedAt) = some 2 ∧
      st2.events = [] ++ [⟨"c1", .failed, false⟩, ⟨"c1", .failed, false⟩] :=
  webhook_failed_delivery_not_recorded
    { calls := [⟨"c1", .transcribing, some "j1", none, none, 0⟩],
      processedWebhooks := [], analysisTriggers := 0, events := [] }
    "j1" "timeout" ⟨"c1", .transcribing, some "j1", none, none, 0⟩ 1 2
    (by decide) rfl (by decide)


/-- Claim C3 counterexample: job `j1` has been fully processed through the
webhook path (transcript stored, one transcript write, one analysis trigger,
job recorded as processed), yet a subsequent poll for the same job that
observes `completed` writes the transcript a second time and dispatches a
second analysis trigger — the polling path does not share the webhook
idempotency guarantee. -/
theorem poll_after_webhook_double_processes :
    "j1" ∈ pollDemoState1.processedWebhooks ∧
    callStatus pollDemoState1 "c1" = some .transcribed ∧
    pollDemoState1.analysisTriggers = 1 ∧
    (pollDemoState1.events.filter (fun e => e.wroteTranscript)).length = 1 ∧
    (pollGET pollDemoState1 "c1" ⟨"completed", some pollDemoTranscript⟩ 2).2.analysisTriggers = 2 ∧
    ((pollGET pollDemoState1 "c1" ⟨"completed", some pollDemoTranscript⟩ 2).2.events.filter
      (fun e => e.wroteTranscript)).length = 2 := by
  decide

/-- Claim C3 (amended): only the webhook path is idempotent per job id.  For
a job already recorded as processed a repeated webhook delivery is
acknowledged with no mutation, while a poll that observes the completed job
carries no idempotency guard: it rewrites the transcript, bumps `updatedAt`
and dispatches another analysis trigger. -/
theorem webhook_poll_no_shared_idempotency
    (st : ServerState) (jobId : String) (call : Call) (t : Transcript) (now : Nat)
    (hfind : findCall st.calls call.id = some call)
    (hjob : call.transcriptionJobId = some jobId)
    (hdone : jobId ∈ st.processedWebhooks) :
    webhookPOST st true false ⟨jobId, "completed", some t, none⟩ now =
      (.alreadyProcessed, st) ∧
    ∃ st2, pollGET st call.id ⟨"completed", some t⟩ now = (.completed t, st2) ∧
      st2.analysisTriggers = st.analysisTriggers + 1 ∧
      st2.events = st.events ++ [⟨call.id, .transcribed, true⟩] ∧
      (findCall st2.calls call.id).map (fun c => (c.transcript, c.updatedAt)) =
        some (some t, now) := by
  have hr : pollGET st call.id ⟨"completed", some t⟩ now =
      (.completed t,
       { st with
         calls := updateCall st.calls call.id (fun c =>
           { c with transcript := some t, status := .transcribed, updatedAt := now })
         analysisTriggers := st.analysisTriggers + 1
         events := st.events ++ [⟨call.id, .transcribed, true⟩] }) := by
    simp [pollGET, hfind, hjob]
  refine ⟨by simp [webhookPOST, hdone], _, hr, rfl, rfl, ?_⟩
  dsimp only
  rw [findCall_updateCall_self st.calls call.id
        (fun c => { c with transcript := some t, status := .transcribed, updatedAt := now })
        (fun c => rfl), hfind]
  rfl

/-- Concrete instance of the amended C3 theorem, at the store in which the
webhook path has already processed job `j1`. -/
theorem webhook_poll_no_shared_idempotency_witness :
    webhookPOST pollDemoState1 true false
        ⟨"j1", "completed", some pollDemoTranscript, none⟩ 2 =
      (.alreadyProcessed, pollDemoState1) ∧
    ∃ st2, pollGET pollDemoState1 "c1" ⟨"completed", some pollDemoTranscript⟩ 2 =
        (.completed pollDemoTranscript, st2) ∧
      st2.analysisTriggers = pollDemoState1.analysisTriggers + 1 ∧
      st2.events = pollDemoState1.events ++ [⟨"c1", .transcribed, true⟩] ∧
      (findCall st2.calls "c1").map (fun c => (c.transcript, c.updatedAt)) =
        some (some pollDemoTranscript, 2) :=
  webhook_poll_no_shared_idempotency pollDemoState1 "j1"
    ⟨"c1", .transcribed, some "j1", some pollDemoTranscript, none, 1⟩
    pollDemoTranscript 2 (by decide) rfl (by decide)

/-- Claim C4: run-analysis on an existing call without a transcript answers
the precondition failure (the 400 no-transcript response) and returns the
store unchanged — no status change, no write event, no analysis trigger. -/
theorem run_analysis_requires_transcript
    (st : ServerState) (call : Call) (outcome : AnalysisOutcome) (now : Nat)
    (hfind : findCall st.calls call.id = some call)
    (hnt : call.transcript = none) :
    runAnalysisPOST ⟨.valid call.id, false⟩ st outcome now = (.noTranscript, st) := by
  simp [runAnalysisPOST, requestJson, hfind, hnt]

/-- Concrete instance of the C4 theorem: a freshly created call without a
transcript. -/
theorem run_analysis_requires_transcript_witness :
    runAnalysisPOST ⟨.valid "c1", false⟩
        { calls := [⟨"c1", .created, none, none, none, 0⟩],
          processedWebhooks := [], analysisTriggers := 0, events := [] }
        (.throws "boom") 5 =
      (.noTranscript,
       { calls := [⟨"c1", .created, none, none, none, 0⟩],
         processedWebhooks := [], analysisTriggers := 0, events := [] }) :=
  run_analysis_requires_transcript
    { calls := [⟨"c1", .created, none, none, none, 0⟩],
      processedWebhooks := [], analysisTriggers := 0, events := [] }
    ⟨"c1", .created, none, none, none, 0⟩ (.throws "boom") 5 rfl rfl

/-- Claim C2 (code behavior at the failing input): after the status was set
to `analyzing`, a throwing analysis invocation reaches the catch block, which
re-reads the request body; the body stream was already consumed by the read
at the top of the handler, so the re-read rejects, the fallback empty object
carries no `callId`, the failed-status update is skipped, and the call is
left in `analyzing` — never `failed` — while the 500 response is returned. -/
theorem run_analysis_throw_leaves_analyzing
    (st : ServerState) (call : Call) (tr : Transcript) (msg : String) (now : Nat)
    (hfind : findCall st.calls call.id = some call)
    (htr : call.transcript = some tr) :
    ∃ st1, runAnalysisPOST ⟨.valid call.id, false⟩ st (.throws msg) now =
        (.analysisFailed msg, st1) ∧
      callStatus st1 call.id = some .analyzing ∧
      callStatus st1 call.id ≠ some .failed := by
  have hr : runAnalysisPOST ⟨.valid call.id, false⟩ st (.throws msg) now =
      (.analysisFailed msg,
       { st with
         calls := updateCall st.calls call.id (fun c =>
           { c with status := .analyzing, updatedAt := now })
         events := st.events ++ [⟨call.id, .analyzing, false⟩] }) := by
    simp [runAnalysisPOST, requestJson, hfind, htr, runAnalysisCatch]
  have hstat : callStatus
      { st with
        calls := updateCall st.calls call.id (fun c =>
          { c with status := .analyzing, updatedAt := now })
        events := st.events ++ [⟨call.id, .analyzing, false⟩] }
      call.id = some .analyzing := by
    rw [callStatus]
    dsimp only
    rw [findCall_updateCall_self st.calls call.id
          (fun c => { c with status := .analyzing, updatedAt := now })
          (fun c => rfl), hfind]
    rfl
  exact ⟨_, hr, hstat, by rw [hstat]; simp⟩

/-- Concrete instance of the C2 behavior theorem: a transcribed call whose
analysis invocation throws stays `analyzing`. -/
theorem run_analysis_throw_leaves_analyzing_witness :
    ∃ st1, runAnalysisPOST ⟨.valid "c1", false⟩
        { calls := [⟨"c1", .transcribed, some "j1",
                     some ⟨"Hello", [⟨0, 5, .tech, "Hello"⟩], "assemblyai", none⟩,
                     none, 1⟩],
          processedWebhooks := ["j1"], analysisTriggers := 1, events := [] }
        (.throws "LLM unavailable") 2 =
        (.analysisFailed "LLM unavailable", st1) ∧
      callStatus st1 "c1" = some .analyzing ∧
      callStatus st1 "c1" ≠ some .failed :=
  run_analysis_throw_leaves_analyzing
    { calls := [⟨"c1", .transcribed, some "j1",
                 some ⟨"Hello", [⟨0, 5, .tech, "Hello"⟩], "assemblyai", none⟩,
                 none, 1⟩],
      processedWebhooks := ["j1"], analysisTriggers := 1, events := [] }
    ⟨"c1", .transcribed, some "j1",
     some ⟨"Hello", [⟨0, 5, .tech, "Hello"⟩], "assemblyai", none⟩, none, 1⟩
    ⟨"Hello", [⟨0, 5, .tech, "Hello"⟩], "assemblyai", none⟩
    "LLM unavailable" 2 rfl rfl

/-- Claim C9: when the provider submission throws, the start-transcription
handler answers the propagated 500 error with the store unchanged (status and
job id not advanced); only a successful submission persists the job id and
advances the status to `transcribing`. -/
theorem start_transcription_advances_only_on_success
    (st : ServerState) (call : Call) (e jobId : String)
    (fileExistsCheck : Option Bool) (now : Nat)
    (hfind : findCall st.calls call.id = some call)
    (hfile : fileExistsCheck ≠ some false) :
    startTranscriptionPOST st call.id fileExistsCheck (.error e) now =
      (.providerError e, st) ∧
    ∃ st1, startTranscriptionPOST st call.id fileExistsCheck (.ok jobId) now =
        (.success jobId, st1) ∧
      (findCall st1.calls call.id).map (fun c => (c.status, c.transcriptionJobId)) =
        some (.transcribing, some jobId) := by
  have hr : startTranscriptionPOST st call.id fileExistsCheck (.ok jobId) now =
      (.success jobId,
       { st with
         calls := updateCall st.calls call.id (fun c =>
           { c with transcriptionJobId := some jobId, status := .transcribing,
                    updatedAt := now })
         events := st.events ++ [⟨call.id, .transcribing, false⟩] }) := by
    simp [startTranscriptionPOST, hfind, hfile]
  refine ⟨by simp [startTranscriptionPOST, hfind, hfile], _, hr, ?_⟩
  dsimp only
  rw [findCall_updateCall_self st.calls call.id
        (fun c => { c with transcriptionJobId := some jobId, status := .transcribing,
                           updatedAt := now })
        (fun c => rfl), hfind]
  rfl

/-- Concrete instance of the C9 theorem: a created call, a throwing and a
succeeding submission. -/
theorem start_transcription_advances_only_on_success_witness :
    startTranscriptionPOST
        { calls := [⟨"c1", .created, none, none, none, 0⟩],
          processedWebhooks := [], analysisTriggers := 0, events := [] }
        "c1" none (.error "provider down") 3 =
      (.providerError "provider down",
       { calls := [⟨"c1", .created, none, none, none, 0⟩],
         processedWebhooks := [], analysisTriggers := 0, events := [] }) ∧
    ∃ st1, startTranscriptionPOST
        { calls := [⟨"c1", .created, none, none, none, 0⟩],
          processedWebhooks := [], analysisTriggers := 0, events := [] }
        "c1" none (.ok "j9") 3 =
        (.success "j9", st1) ∧
      (findCall st1.calls "c1").map (fun c => (c.status, c.transcriptionJobId)) =
        some (.transcribing, some "j9") :=
  start_transcription_advances_only_on_success
    { calls := [⟨"c1", .created, none, none, none, 0⟩],
      processedWebhooks := [], analysisTriggers := 0, events := [] }
    ⟨"c1", .created, none, none, none, 0⟩ "provider down" "j9" none 3
    rfl (by decide)

/-! ## Helper lemmas on the adapter -/

/-- The first-appearance fold keeps the accumulator free of duplicates. -/
theorem speakersOf_aux_nodup (segs : List RawSeg) :
    ∀ acc : List String, acc.Nodup →
      (segs.foldl (fun acc s => if s.speaker ∈ acc then acc else acc ++ [s.speaker]) acc).Nodup := by
  induction segs with
  | nil => exact fun acc h => h
  | cons s ss ih =>
    intro acc h
    simp only [List.foldl_cons]
    by_cases hm : s.speaker ∈ acc
    · rw [if_pos hm]
      exact ih acc h
    · rw [if_neg hm]
      refine ih _ ?_
      simp [List.nodup_append, h, hm]

/-- The speaker tags collected by `identifyTechSpeaker` are distinct. -/
theorem speakersOf_nodup (segs : List RawSeg) : (speakersOf segs).Nodup :=
  speakersOf_aux_nodup segs [] List.nodup_nil


/-- Closed form of `extendAll`: speaker and start persist, the end is the end
of the last absorbed word and the texts are joined in order. -/
theorem extendAll_spec (run : List AWord) : ∀ c : RawSeg,
    extendAll c run =
      ⟨c.speaker, c.start, lastEndOf c.«end» run,
       joinWords c.text (run.map (fun x => x.text))⟩ := by
  induction run with
  | nil => intro c; rfl
  | cons w ws ih =>
    intro c
    show extendAll (extendSegment c w) ws = _
    rw [ih]
    rfl

/-- Loop invariant of the word loop: with a current segment in hand it first
absorbs the maximal same-speaker prefix, then emits and restarts. -/
theorem wordLoop_some (ws : List AWord) : ∀ c : RawSeg,
    wordLoop (some c) ws =
      extendAll c (ws.takeWhile (fun x => x.speaker == c.speaker)) ::
      wordLoop none (ws.dropWhile (fun x => x.speaker == c.speaker)) := by
  induction ws with
  | nil => intro c; rfl
  | cons w ws ih =>
    intro c
    by_cases h : w.speaker = c.speaker
    · rw [show wordLoop (some c) (w :: ws) = wordLoop (some (extendSegment c w)) ws from by
            simp [wordLoop, h],
          ih (extendSegment c w)]
      simp [extendSegment, extendAll, List.takeWhile_cons, List.dropWhile_cons, h]
    · rw [show wordLoop (some c) (w :: ws) = c :: wordLoop (some (newSegment w)) ws from by
            simp [wordLoop, h],
          List.takeWhile_cons, List.dropWhile_cons]
      simp [extendAll, h]
      rfl

/-- The word loop of `convertToTranscript` computes exactly the maximal-run
merge described by the specification-side `mergedSegments`. -/
theorem buildWordSegments_eq_mergedSegments (ws : List AWord) :
    buildWordSegments ws = mergedSegments ws := by
  match ws with
  | [] => simp [buildWordSegments, wordLoop, mergedSegments]
  | w :: ws' =>
    have hrec := buildWordSegments_eq_mergedSegments
      (ws'.dropWhile (fun x => x.speaker == w.speaker))
    rw [show buildWordSegments (w :: ws') = wordLoop (some (newSegment w)) ws' from rfl,
        wordLoop_some ws' (newSegment w)]
    rw [show mergedSegments (w :: ws') =
          runSegment w (ws'.takeWhile (fun x => x.speaker == w.speaker)) ::
          mergedSegments (ws'.dropWhile (fun x => x.speaker == w.speaker)) from by
        simp [mergedSegments]]
    exact congrArg₂ List.cons (by rw [extendAll_spec]; rfl) hrec
termination_by ws.length
decreasing_by
  simp only [List.length_cons]
  exact Nat.lt_succ_of_le (List.dropWhile_sublist _).length_le

/-- Claim C7: when the provider result carries only word-level timing (no
utterances), segment construction merges each maximal run of consecutive
words of one speaker into one segment whose start is the start of the first
word, whose end is the end of the last merged word and whose text is the word
texts joined in order; `convertToTranscript` then only applies the
speaker-role mapping on top of those merged segments. -/
theorem word_level_segment_fallback (ws : List AWord) (txt : Option String)
    (conf : Option Rat) (llmOutcome : Option (Option String)) :
    buildWordSegments ws = mergedSegments ws ∧
    convertToTranscript ⟨none, some ws, txt, conf⟩ llmOutcome =
      { text := txt.getD ""
        segments := (mergedSegments ws).map (fun seg =>
          { start := seg.start, «end» := seg.«end»,
            speaker := mapSpeaker (identifyTechSpeaker (mergedSegments ws) llmOutcome) seg.speaker,
            text := seg.text })
        provider := "assemblyai"
        confidence := conf } := by
  refine ⟨buildWordSegments_eq_mergedSegments ws, ?_⟩
  rw [convertToTranscript]
  simp only [buildWordSegments_eq_mergedSegments ws]

/-- Claim C6: with exactly two distinct anonymous speaker tags, a throwing
content-based inference is caught and answered by the positional fallback:
the first-seen tag maps to `tech`, the other to `customer`, and neither maps
to `unknown` — the mapping is returned, not an exception. -/
theorem speaker_role_fallback_two_tags (segs : List RawSeg) (a b : String)
    (h : speakersOf segs = [a, b]) :
    identifyTechSpeaker segs none = [(a, .tech), (b, .customer)] ∧
    mapSpeaker (identifyTechSpeaker segs none) a = .tech ∧
    mapSpeaker (identifyTechSpeaker segs none) b = .customer := by
  have hnd := speakersOf_nodup segs
  rw [h] at hnd
  have hab : a ≠ b := by
    simp only [List.nodup_cons, List.mem_singleton] at hnd
    exact hnd.1
  have hba : (b == a) = false := beq_eq_false_iff_ne.mpr (Ne.symm hab)
  have hid : identifyTechSpeaker segs none = [(a, .tech), (b, .customer)] := by
    unfold identifyTechSpeaker
    rw [h]
    rfl
  refine ⟨hid, ?_, ?_⟩
  · rw [hid]
    simp [mapSpeaker, List.lookup]
  · rw [hid]
    simp [mapSpeaker, List.lookup, hba]

/-- Concrete instance of the C6 theorem: two tags `A` and `B`, content-based
inference throwing. -/
theorem speaker_role_fallback_two_tags_witness :
    identifyTechSpeaker
        [⟨"A", 0, 1, "Hi"⟩, ⟨"B", 1, 2, "Hello"⟩] none =
      [("A", .tech), ("B", .customer)] ∧
    mapSpeaker (identifyTechSpeaker
        [⟨"A", 0, 1, "Hi"⟩, ⟨"B", 1, 2, "Hello"⟩] none) "A" = .tech ∧
    mapSpeaker (identifyTechSpeaker
        [⟨"A", 0, 1, "Hi"⟩, ⟨"B", 1, 2, "Hello"⟩] none) "B" = .customer :=
  speaker_role_fallback_two_tags
    [⟨"A", 0, 1, "Hi"⟩, ⟨"B", 1, 2, "Hello"⟩] "A" "B" (by decide)

/-! ## Helper lemmas on the JSON model and the schema semantics -/

/-- Reading the key just set yields the new value. -/
theorem lookupField_setKey_self (fs : List (String × JVal)) (k : String) (v : JVal) :
    lookupField (setKey fs k v) k = v := by
  induction fs with
  | nil => simp [setKey, lookupField]
  | cons kv rest ih =>
    obtain ⟨k1, v1⟩ := kv
    by_cases h : k1 = k
    · simp [setKey, lookupField, h]
    · simp [setKey, lookupField, h, ih]

/-- Setting one key leaves every other key unchanged. -/
theorem lookupField_setKey_ne (fs : List (String × JVal)) (k k2 : String) (v : JVal)
    (h : k ≠ k2) :
    lookupField (setKey fs k v) k2 = lookupField fs k2 := by
  induction fs with
  | nil => simp [setKey, lookupField, h]
  | cons kv rest ih =>
    obtain ⟨k1, v1⟩ := kv
    by_cases h1 : k1 = k
    · subst h1
      simp [setKey, lookupField, h]
    · simp [setKey, lookupField, h1, ih]

/-- Lookup through a valuewise map of the field list, for maps fixing
`undefined` (the default of a missing key). -/
theorem lookupField_map_vals (g : JVal → JVal) (hg : g .undefined = .undefined)
    (fs : List (String × JVal)) (k : String) :
    lookupField (fs.map (fun kv => (kv.1, g kv.2))) k = g (lookupField fs k) := by
  induction fs with
  | nil => simp [lookupField, hg]
  | cons kv rest ih =>
    obtain ⟨k1, v1⟩ := kv
    by_cases h : k1 = k
    · simp [lookupField, h]
    · simp [lookupField, h, ih]

/-- Normalizing the null of a parsed timestamp value parses to the normalized
timestamp. -/
theorem parseTimestamp_normNull (v : JVal) (t : TsVal)
    (h : parseTimestamp v = some t) :
    parseTimestamp (normNull v) = some (normTs t) := by
  cases v <;> simp only [parseTimestamp, Option.some.injEq, reduceCtorEq] at h <;>
    subst h <;> rfl

/-- Array values are the only ones `z.array` accepts. -/
theorem parseArray_eq_some {α : Type} (p : JVal → Option α) (v : JVal) (ys : List α)
    (h : parseArray p v = some ys) :
    ∃ items, v = .arr items ∧ parseList p items = some ys := by
  cases v <;> simp_all [parseArray]

/-- Elementwise parsing commutes with an elementwise rewrite that preserves
parse success up to a value map. -/
theorem parseList_map {α : Type} (p : JVal → Option α) (f : JVal → JVal) (g : α → α)
    (hp : ∀ x y, p x = some y → p (f x) = some (g y)) :
    ∀ (items : List JVal) (ys : List α), parseList p items = some ys →
      parseList p (items.map f) = some (ys.map g) := by
  intro items
  induction items with
  | nil =>
    intro ys h
    simp only [parseList, Option.some.injEq] at h
    subst h
    simp [parseList]
  | cons x xs ih =>
    intro ys h
    simp only [parseList, Option.bind_eq_some, Option.some.injEq] at h
    obtain ⟨y, hy, ys1, hys1, he⟩ := h
    subst he
    simp only [List.map_cons, parseList, Option.bind_eq_some, Option.some.injEq]
    exact ⟨g y, hp x y hy, ys1.map g, ih ys1 hys1, rfl⟩

/-- Normalizing the timestamp of an accepted evidence entry keeps it accepted
and normalizes its parsed timestamp. -/
theorem parseEvidence_procTsItem (ev : JVal) (e : Evidence)
    (h : parseEvidence ev = some e) :
    parseEvidence (procTsItem ev) = some (normEvidence e) := by
  obtain ⟨fs, rfl⟩ : ∃ fs, ev = .obj fs := by
    cases ev <;> simp_all [parseEvidence]
  simp only [parseEvidence, Option.bind_eq_some, Option.some.injEq] at h
  obtain ⟨q, hq, ts, hts, he⟩ := h
  subst he
  simp only [procTsItem, getF, setField, parseEvidence, Option.bind_eq_some,
    Option.some.injEq]
  refine ⟨q, ?_, normTs ts, ?_, rfl⟩
  · rw [lookupField_setKey_ne _ _ _ _ (by decide)]
    exact hq
  · rw [lookupField_setKey_self]
    exact parseTimestamp_normNull _ _ hts

/-- Normalizing the timestamp of an accepted checklist item keeps it accepted
and normalizes its parsed timestamp. -/
theorem parseChecklistItem_procTsItem (it : JVal) (c : ChecklistItem)
    (h : parseChecklistItem it = some c) :
    parseChecklistItem (procTsItem it) = some { c with timestamp := normTs c.timestamp } := by
  obtain ⟨fs, rfl⟩ : ∃ fs, it = .obj fs := by
    cases it <;> simp_all [parseChecklistItem]
  simp only [parseChecklistItem, Option.bind_eq_some, Option.some.injEq] at h
  obtain ⟨i, hi, l, hl, pd, hpd, evd, hevd, ts, hts, he⟩ := h
  subst he
  simp only [procTsItem, getF, setField, parseChecklistItem, Option.bind_eq_some,
    Option.some.injEq]
  refine ⟨i, ?_, l, ?_, pd, ?_, evd, ?_, normTs ts, ?_, rfl⟩
  · rw [lookupField_setKey_ne _ _ _ _ (by decide)]
    exact hi
  · rw [lookupField_setKey_ne _ _ _ _ (by decide)]
    exact hl
  · rw [lookupField_setKey_ne _ _ _ _ (by decide)]
    exact hpd
  · rw [lookupField_setKey_ne _ _ _ _ (by decide)]
    exact hevd
  · rw [lookupField_setKey_self]
    exact parseTimestamp_normNull _ _ hts

/-- Normalizing the timestamp of an accepted sales insight keeps it accepted
and normalizes its parsed timestamp. -/
theorem parseSalesInsight_procTsItem (it : JVal) (c : SalesInsight)
    (h : parseSalesInsight it = some c) :
    parseSalesInsight (procTsItem it) = some { c with timestamp := normTs c.timestamp } := by
  obtain ⟨fs, rfl⟩ : ∃ fs, it = .obj fs := by
    cases it <;> simp_all [parseSalesInsight]
  simp only [parseSalesInsight, Option.bind_eq_some, Option.some.injEq] at h
  obtain ⟨sn, hsn, ts, hts, nt, hnt, sv, hsv, he⟩ := h
  subst he
  simp only [procTsItem, getF, setField, parseSalesInsight, Option.bind_eq_some,
    Option.some.injEq]
  refine ⟨sn, ?_, normTs ts, ?_, nt, ?_, sv, ?_, rfl⟩
  · rw [lookupField_setKey_ne _ _ _ _ (by decide)]
    exact hsn
  · rw [lookupField_setKey_self]
    exact parseTimestamp_normNull _ _ hts
  · rw [lookupField_setKey_ne _ _ _ _ (by decide)]
    exact hnt
  · rw [lookupField_setKey_ne _ _ _ _ (by decide)]
    exact hsv

/-- Normalizing the timestamp of an accepted missed opportunity keeps it
accepted and normalizes its parsed timestamp. -/
theorem parseMissedOpportunity_procTsItem (it : JVal) (c : MissedOpportunity)
    (h : parseMissedOpportunity it = some c) :
    parseMissedOpportunity (procTsItem it) =
      some { c with timestamp := normTs c.timestamp } := by
  obtain ⟨fs, rfl⟩ : ∃ fs, it = .obj fs := by
    cases it <;> simp_all [parseMissedOpportunity]
  simp only [parseMissedOpportunity, Option.bind_eq_some, Option.some.injEq] at h
  obtain ⟨rc, hrc, sn, hsn, ts, hts, he⟩ := h
  subst he
  simp only [procTsItem, getF, setField, parseMissedOpportunity, Option.bind_eq_some,
    Option.some.injEq]
  refine ⟨rc, ?_, sn, ?_, normTs ts, ?_, rfl⟩
  · rw [lookupField_setKey_ne _ _ _ _ (by decide)]
    exact hrc
  · rw [lookupField_setKey_ne _ _ _ _ (by decide)]
    exact hsn
  · rw [lookupField_setKey_self]
    exact parseTimestamp_normNull _ _ hts

/-- Object values are the only ones the stages object schema accepts. -/
theorem parseStages_eq_some_obj (v : JVal) (s : AnalysisStages)
    (h : parseStages v = some s) : ∃ sfs, v = .obj sfs := by
  cases v <;> simp_all [parseStages]

/-- Normalizing the evidence timestamps of an accepted stage evaluation keeps
it accepted and normalizes its parsed evidence entries. -/
theorem parseStageEvaluation_procStage (sv : JVal) (s : StageEvaluation)
    (h : parseStageEvaluation sv = some s) :
    parseStageEvaluation (procStage sv) = some (normStageEvaluation s) := by
  obtain ⟨fs, rfl⟩ : ∃ fs, sv = .obj fs := by
    cases sv <;> simp_all [parseStageEvaluation]
  have h0 := h
  simp only [parseStageEvaluation, Option.bind_eq_some, Option.some.injEq] at h
  obtain ⟨pr, hpr, ql, hql, ev, hev, nts, hnts, he⟩ := h
  subst he
  cases hlk : lookupField fs "evidence" with
  | arr items =>
    rw [hlk] at hev
    simp only [parseOptional, parseArray, Option.map_eq_some'] at hev
    obtain ⟨es, hes, hev'⟩ := hev
    subst hev'
    have hps : procStage (.obj fs) =
        .obj (setKey fs "evidence" (.arr (items.map procTsItem))) := by
      simp [procStage, getF, setField, hlk]
    rw [hps]
    simp only [parseStageEvaluation, Option.bind_eq_some, Option.some.injEq]
    refine ⟨pr, ?_, ql, ?_, some (es.map normEvidence), ?_, nts, ?_, rfl⟩
    · rw [lookupField_setKey_ne _ _ _ _ (by decide)]
      exact hpr
    · rw [lookupField_setKey_ne _ _ _ _ (by decide)]
      exact hql
    · rw [lookupField_setKey_self]
      simp only [parseOptional, parseArray, Option.map_eq_some']
      exact ⟨es.map normEvidence,
        parseList_map parseEvidence procTsItem normEvidence
          parseEvidence_procTsItem items es hes, rfl⟩
    · rw [lookupField_setKey_ne _ _ _ _ (by decide)]
      exact hnts
  | undefined =>
    rw [hlk] at hev
    simp only [parseOptional, Option.some.injEq] at hev
    subst hev
    have hps : procStage (.obj fs) = .obj fs := by
      simp [procStage, getF, hlk]
    rw [hps, h0]
    rfl
  | null =>
    rw [hlk] at hev
    simp [parseOptional, parseArray] at hev
  | bool b =>
    rw [hlk] at hev
    simp [parseOptional, parseArray] at hev
  | num q =>
    rw [hlk] at hev
    simp [parseOptional, parseArray] at hev
  | str s =>
    rw [hlk] at hev
    simp [parseOptional, parseArray] at hev
  | obj ofs =>
    rw [hlk] at hev
    simp [parseOptional, parseArray] at hev

/-- Normalizing every stage value of an accepted stages object keeps it
accepted and normalizes the six parsed stage evaluations. -/
theorem parseStages_map_procStage (sfs : List (String × JVal)) (s : AnalysisStages)
    (h : parseStages (.obj sfs) = some s) :
    parseStages (.obj (sfs.map (fun kv => (kv.1, procStage kv.2)))) =
      some (normStages s) := by
  simp only [parseStages, Option.bind_eq_some, Option.some.injEq] at h
  obtain ⟨e1, h1, e2, h2, e3, h3, e4, h4, e5, h5, e6, h6, he⟩ := h
  subst he
  have hmap : ∀ k, lookupField (sfs.map (fun kv => (kv.1, procStage kv.2))) k =
      procStage (lookupField sfs k) :=
    fun k => lookupField_map_vals procStage rfl sfs k
  simp only [parseStages, Option.bind_eq_some, Option.some.injEq]
  exact ⟨normStageEvaluation e1, by rw [hmap]; exact parseStageEvaluation_procStage _ _ h1,
         normStageEvaluation e2, by rw [hmap]; exact parseStageEvaluation_procStage _ _ h2,
         normStageEvaluation e3, by rw [hmap]; exact parseStageEvaluation_procStage _ _ h3,
         normStageEvaluation e4, by rw [hmap]; exact parseStageEvaluation_procStage _ _ h4,
         normStageEvaluation e5, by rw [hmap]; exact parseStageEvaluation_procStage _ _ h5,
         normStageEvaluation e6, by rw [hmap]; exact parseStageEvaluation_procStage _ _ h6,
         rfl⟩

/-- Master lemma: preprocessing an accepted analysis value keeps it accepted
and the parse result is the typed normalization of the original parse
result. -/
theorem analysisSchema_parse_preprocess (v : JVal) (a : Analysis)
    (h : analysisSchema_parse v = some a) :
    analysisSchema_parse (preprocessAnalysisData v) = some (normAnalysis a) := by
  obtain ⟨fs, rfl⟩ : ∃ fs, v = .obj fs := by
    cases v <;> simp_all [analysisSchema_parse]
  simp only [analysisSchema_parse, Option.bind_eq_some, Option.some.injEq] at h
  obtain ⟨sum, hsum, gf, hgf, sc, hsc, ctp, hctp, stg, hstg, si, hsi,
          mo, hmo, cl, hcl, ca, hca, he⟩ := h
  subst he
  obtain ⟨siItems, hsiLk, hsiParse⟩ := parseArray_eq_some _ _ _ hsi
  obtain ⟨moItems, hmoLk, hmoParse⟩ := parseArray_eq_some _ _ _ hmo
  obtain ⟨clItems, hclLk, hclParse⟩ := parseArray_eq_some _ _ _ hcl
  obtain ⟨sfs, hstLk⟩ : ∃ sfs, lookupField fs "stages" = .obj sfs := by
    obtain ⟨sfs, hsfs⟩ := parseStages_eq_some_obj _ _ hstg
    exact ⟨sfs, hsfs⟩
  rw [hstLk] at hstg
  have hpre : preprocessAnalysisData (.obj fs) =
      .obj (setKey (setKey (setKey (setKey fs
        "checklist" (.arr (clItems.map procTsItem)))
        "salesInsights" (.arr (siItems.map procTsItem)))
        "missedOpportunities" (.arr (moItems.map procTsItem)))
        "stages" (.obj (sfs.map (fun kv => (kv.1, procStage kv.2))))) := by
    rw [preprocessAnalysisData]
    rw [show procArrayField fs "checklist" =
          setKey fs "checklist" (.arr (clItems.map procTsItem)) from by
        rw [procArrayField, hclLk]]
    rw [show procArrayField (setKey fs "checklist" (.arr (clItems.map procTsItem)))
          "salesInsights" =
          setKey (setKey fs "checklist" (.arr (clItems.map procTsItem)))
            "salesInsights" (.arr (siItems.map procTsItem)) from by
        rw [procArrayField, lookupField_setKey_ne _ _ _ _ (by decide), hsiLk]]
    rw [show procArrayField (setKey (setKey fs
            "checklist" (.arr (clItems.map procTsItem)))
            "salesInsights" (.arr (siItems.map procTsItem)))
          "missedOpportunities" =
          setKey (setKey (setKey fs
            "checklist" (.arr (clItems.map procTsItem)))
            "salesInsights" (.arr (siItems.map procTsItem)))
            "missedOpportunities" (.arr (moItems.map procTsItem)) from by
        rw [procArrayField, lookupField_setKey_ne _ _ _ _ (by decide),
            lookupField_setKey_ne _ _ _ _ (by decide), hmoLk]]
    rw [lookupField_setKey_ne _ _ _ _ (by decide),
        lookupField_setKey_ne _ _ _ _ (by decide),
        lookupField_setKey_ne _ _ _ _ (by decide), hstLk]
  rw [hpre]
  simp only [analysisSchema_parse, Option.bind_eq_some, Option.some.injEq]
  refine ⟨sum, ?_, gf, ?_, sc, ?_, ctp, ?_,
          normStages stg, ?_,
          si.map (fun i => { i with timestamp := normTs i.timestamp }), ?_,
          mo.map (fun o => { o with timestamp := normTs o.timestamp }), ?_,
          cl.map (fun c => { c with timestamp := normTs c.timestamp }), ?_,
          ca, ?_, ?_⟩
  · rw [lookupField_setKey_ne _ _ _ _ (by decide),
        lookupField_setKey_ne _ _ _ _ (by decide),
        lookupField_setKey_ne _ _ _ _ (by decide),
        lookupField_setKey_ne _ _ _ _ (by decide)]
    exact hsum
  · rw [lookupField_setKey_ne _ _ _ _ (by decide),
        lookupField_setKey_ne _ _ _ _ (by decide),
        lookupField_setKey_ne _ _ _ _ (by decide),
        lookupField_setKey_ne _ _ _ _ (by decide)]
    exact hgf
  · rw [lookupField_setKey_ne _ _ _ _ (by decide),
        lookupField_setKey_ne _ _ _ _ (by decide),
        lookupField_setKey_ne _ _ _ _ (by decide),
        lookupField_setKey_ne _ _ _ _ (by decide)]
    exact hsc
  · rw [lookupField_setKey_ne _ _ _ _ (by decide),
        lookupField_setKey_ne _ _ _ _ (by decide),
        lookupField_setKey_ne _ _ _ _ (by decide),
        lookupField_setKey_ne _ _ _ _ (by decide)]
    exact hctp
  · rw [lookupField_setKey_self]
    exact parseStages_map_procStage sfs stg hstg
  · rw [lookupField_setKey_ne _ _ _ _ (by decide),
        lookupField_setKey_ne _ _ _ _ (by decide),
        lookupField_setKey_self]
    simp only [parseArray]
    exact parseList_map parseSalesInsight procTsItem
      (fun i => { i with timestamp := normTs i.timestamp })
      parseSalesInsight_procTsItem siItems si hsiParse
  · rw [lookupField_setKey_ne _ _ _ _ (by decide),
        lookupField_setKey_self]
    simp only [parseArray]
    exact parseList_map parseMissedOpportunity procTsItem
      (fun o => { o with timestamp := normTs o.timestamp })
      parseMissedOpportunity_procTsItem moItems mo hmoParse
  · rw [lookupField_setKey_ne _ _ _ _ (by decide),
        lookupField_setKey_ne _ _ _ _ (by decide),
        lookupField_setKey_ne _ _ _ _ (by decide),
        lookupField_setKey_self]
    simp only [parseArray]
    exact parseList_map parseChecklistItem procTsItem
      (fun c => { c with timestamp := normTs c.timestamp })
      parseChecklistItem_procTsItem clItems cl hclParse
  · rw [lookupField_setKey_ne _ _ _ _ (by decide),
        lookupField_setKey_ne _ _ _ _ (by decide),
        lookupField_setKey_ne _ _ _ _ (by decide),
        lookupField_setKey_ne _ _ _ _ (by decide)]
    exact hca
  · rfl

/-- Timestamp collection of a normalized evidence list. -/
theorem evidence_timestamps_norm (o : Option (List Evidence)) :
    ((o.map (fun es => es.map normEvidence)).getD []).map (fun e => e.timestamp) =
      ((o.getD []).map (fun e => e.timestamp)).map normTs := by
  cases o <;> simp [normEvidence]

/-- The timestamps of a normalized analysis are the normalized timestamps. -/
theorem timestampsOf_normAnalysis (a : Analysis) :
    timestampsOf (normAnalysis a) = (timestampsOf a).map normTs := by
  obtain ⟨sum, gf, sc, ctp, stg, si, mo, cl, ca⟩ := a
  obtain ⟨s1, s2, s3, s4, s5, s6⟩ := stg
  simp [timestampsOf, normAnalysis, normStages, normStageEvaluation,
    evidence_timestamps_norm, List.map_append, List.map_map]
  rfl

/-- Claim C5: an Analysis-shaped value accepted by the schema whose optional
timestamps (checklist, sales insights, missed opportunities, and every stage
evidence entry) are all `null` is, after null-normalization, still accepted
by the schema, and the resulting in-memory value carries those timestamp
fields as absent — not `null` — with the normalization applied to every
element of each nested array. -/
theorem null_timestamp_normalization_roundtrip (v : JVal) (a : Analysis)
    (hparse : analysisSchema_parse v = some a)
    (hnull : ∀ ts ∈ timestampsOf a, ts = TsVal.nullVal) :
    analysisSchema_parse (preprocessAnalysisData v) = some (normAnalysis a) ∧
    ∀ ts ∈ timestampsOf (normAnalysis a), ts = TsVal.absent := by
  refine ⟨analysisSchema_parse_preprocess v a hparse, ?_⟩
  intro ts hts
  rw [timestampsOf_normAnalysis] at hts
  obtain ⟨t0, ht0, rfl⟩ := List.mem_map.mp hts
  rw [hnull t0 ht0]
  rfl


/-- Concrete instance of the C5 theorem. -/
theorem null_timestamp_normalization_roundtrip_witness :
    analysisSchema_parse c5v = some c5analysis ∧
    (∀ ts ∈ timestampsOf c5analysis, ts = TsVal.nullVal) ∧
    analysisSchema_parse (preprocessAnalysisData c5v) = some (normAnalysis c5analysis) ∧
    ∀ ts ∈ timestampsOf (normAnalysis c5analysis), ts = TsVal.absent := by
  have h := null_timestamp_normalization_roundtrip c5v c5analysis rfl (by decide)
  exact ⟨rfl, by decide, h.1, h.2⟩

/-- The score schema only accepts numbers within the 0..100 bounds. -/
theorem parseScore_bounds (v : JVal) (q : Rat) (h : parseScore v = some q) :
    0 ≤ q ∧ q ≤ 100 := by
  cases v <;> simp only [parseScore, reduceCtorEq] at h
  split at h
  · injection h with h1
    subst h1
    assumption
  · cases h

/-- The stage evaluation schema rejects an undefined value, hence an absent
stage key. -/
theorem parseStageEvaluation_ne_undef (v : JVal) (s : StageEvaluation)
    (h : parseStageEvaluation v = some s) : v ≠ JVal.undefined := by
  intro hv
  subst hv
  simp [parseStageEvaluation] at h

/-- Claim C8 (amended): every value the analysis schema accepts carries all
six fixed stage keys in its `stages` object, and its four scores are numbers
within 0 and 100 inclusive.  The schema does not require the scores to be
integers and does not validate checklist-id uniqueness (see the
counterexample theorem). -/
theorem analysis_accepted_shape (v : JVal) (a : Analysis)
    (h : analysisSchema_parse v = some a) :
    (∀ k ∈ stageKeys, getF (getF v "stages") k ≠ JVal.undefined) ∧
    (0 ≤ a.scores.complianceOverall ∧ a.scores.complianceOverall ≤ 100) ∧
    (0 ≤ a.scores.clarity ∧ a.scores.clarity ≤ 100) ∧
    (0 ≤ a.scores.empathy ∧ a.scores.empathy ≤ 100) ∧
    (0 ≤ a.scores.professionalism ∧ a.scores.professionalism ≤ 100) := by
  obtain ⟨fs, rfl⟩ : ∃ fs, v = .obj fs := by
    cases v <;> simp_all [analysisSchema_parse]
  simp only [analysisSchema_parse, Option.bind_eq_some, Option.some.injEq] at h
  obtain ⟨sum, hsum, gf, hgf, sc, hsc, ctp, hctp, stg, hstg, si, hsi,
          mo, hmo, cl, hcl, ca, hca, he⟩ := h
  subst he
  obtain ⟨sfs, hstLk⟩ := parseStages_eq_some_obj _ _ hstg
  rw [hstLk] at hstg
  simp only [parseStages, Option.bind_eq_some, Option.some.injEq] at hstg
  obtain ⟨e1, h1, e2, h2, e3, h3, e4, h4, e5, h5, e6, h6, hes⟩ := hstg
  obtain ⟨ssc, hscLk⟩ : ∃ ssc, lookupField fs "scores" = .obj ssc := by
    cases hls : lookupField fs "scores" <;> rw [hls] at hsc <;>
      simp_all [parseScores]
  rw [hscLk] at hsc
  simp only [parseScores, Option.bind_eq_some, Option.some.injEq] at hsc
  obtain ⟨q1, hq1, q2, hq2, q3, hq3, q4, hq4, hqs⟩ := hsc
  subst hqs
  refine ⟨?_, parseScore_bounds _ _ hq1, parseScore_bounds _ _ hq2,
          parseScore_bounds _ _ hq3, parseScore_bounds _ _ hq4⟩
  intro k hk
  have hgv : getF (getF (.obj fs) "stages") k = lookupField sfs k := by
    rw [getF, hstLk]
    rfl
  rw [hgv]
  simp only [stageKeys, List.mem_cons, List.not_mem_nil, or_false] at hk
  rcases hk with rfl | rfl | rfl | rfl | rfl | rfl
  · exact parseStageEvaluation_ne_undef _ _ h1
  · exact parseStageEvaluation_ne_undef _ _ h2
  · exact parseStageEvaluation_ne_undef _ _ h3
  · exact parseStageEvaluation_ne_undef _ _ h4
  · exact parseStageEvaluation_ne_undef _ _ h5
  · exact parseStageEvaluation_ne_undef _ _ h6


/-- Claim C8 counterexample: the analysis schema accepts a value whose
`clarity` score is the non-integer 101/2 and whose checklist carries two
items with the same id — the schema validates neither score integrality nor
checklist-id uniqueness. -/
theorem analysis_schema_accepts_noninteger_and_duplicate_ids :
    analysisSchema_parse c8v = some c8analysis ∧
    c8analysis.scores.clarity = 101 / 2 ∧
    c8analysis.scores.clarity.den ≠ 1 ∧
    (¬ ∃ n : ℤ, c8analysis.scores.clarity = (n : Rat)) ∧
    c8analysis.checklist.map (fun c => c.id) = ["dup", "dup"] ∧
    ¬ (c8analysis.checklist.map (fun c => c.id)).Nodup := by
  have hval : c8analysis.scores.clarity = 101 / 2 := by
    show c8half = 101 / 2
    unfold c8half
    rw [Rat.mk'_eq_divInt, Rat.divInt_eq_div]
    norm_num
  refine ⟨rfl, hval, by decide, ?_, rfl, by decide⟩
  rintro ⟨n, hn⟩
  have hden : c8analysis.scores.clarity.den = 1 := by
    rw [hn]
    exact Rat.den_intCast n
  revert hden
  decide

/-- Concrete instance of the amended C8 theorem, at the counterexample
value. -/
theorem analysis_accepted_shape_witness :
    (∀ k ∈ stageKeys, getF (getF c8v "stages") k ≠ JVal.undefined) ∧
    (0 ≤ c8analysis.scores.complianceOverall ∧ c8analysis.scores.complianceOverall ≤ 100) ∧
    (0 ≤ c8analysis.scores.clarity ∧ c8analysis.scores.clarity ≤ 100) ∧
    (0 ≤ c8analysis.scores.empathy ∧ c8analysis.scores.empathy ≤ 100) ∧
    (0 ≤ c8analysis.scores.professionalism ∧ c8analysis.scores.professionalism ≤ 100) :=
  analysis_accepted_shape c8v c8analysis rfl

end Noso
